import Mathlib

/-!
# Verification of the sidecar-reconciliation engine (`Rename-workv26.py`)

This file gives a shallow embedding of the reconciliation engine of
`src/Rename-workv26.py` and settles the frozen claims about it.

Modelling conventions:
* Python strings are modelled as `List Char`; `str.lower()` is modelled
  character-wise by `Char.toLower` (all concrete inputs in this file are
  ASCII, where the two coincide).
* Python float parameters (`min_prefix_factor`, `avg_len`) are modelled as
  exact non-negative fractions (`PyFloat`), and `int(x)` on a non-negative
  value as the floor.  At every integer value appearing in this file the
  IEEE-754 evaluation of the source and the exact evaluation agree
  (e.g. `int(60*0.7) = 42` in both).
* The filesystem is modelled as the list of existing paths; `os.rename`
  succeeds exactly when the source path exists (other I/O failures are out
  of scope), and `os.path.exists` is list membership.
* `fnmatch.fnmatch` is modelled by an executable glob matcher supporting
  `*`, `?` and `[...]` sets (negation with `!`, first-position `]` literal,
  code-point ranges, unterminated `[` literal), mirroring
  `fnmatch.translate`.
* JSON sidecar contents are external inputs: the title cache built by
  `load_json_titles` is passed in as an association list from sidecar
  filename to its title (`get_json_title` returns `''` on failure, so a
  missing entry defaults to the empty title).
-/

/-- Python strings, modelled as lists of characters. -/
abbrev Str := List Char

/-- Character-wise `str.lower()`. -/
def pyLower (s : Str) : Str := s.map Char.toLower

/-- Python string comparison `a < b` (lexicographic by code point). -/
def strLt : Str → Str → Bool
  | [], [] => false
  | [], _ :: _ => true
  | _ :: _, [] => false
  | a :: as, b :: bs => if a.val < b.val then true else if a.val = b.val then strLt as bs else false

/-- Python `min(a, b)` on two strings: the lexicographically smaller one
(`a` when they are equal). -/
def pyMin (a b : Str) : Str := if strLt b a then b else a

/-- Python whitespace recognised by `str.strip()` (ASCII subset). -/
def pySpace (c : Char) : Bool :=
  c == ' ' || c == '\t' || c == '\n' || c == '\r' || c == '\x0b' || c == '\x0c'

/-- Python `str.strip()`: remove leading and trailing whitespace. -/
def pyStrip (s : Str) : Str :=
  ((s.dropWhile pySpace).reverse.dropWhile pySpace).reverse

/-- One inner loop of `levenshtein_distance`: given `c1`, the remaining tail
of `s2`, the tail of the previous row starting at position `j`, and the last
entry of the current row, produce the rest of the current row.  The
`previous_row[j+1]`/`previous_row[j]`/`current_row[j]` accesses of the source
become the two leading entries of the row tail and the accumulator. -/
def levRow (c1 : Char) : List Char → List Nat → Nat → List Nat
  | [], _, _ => []
  | c2 :: s2t, p0 :: p1 :: prest, cur =>
    let e := min (p1 + 1) (min (cur + 1) (p0 + (if c1 = c2 then 0 else 1)))
    e :: levRow c1 s2t (p1 :: prest) e
  | _ :: _, _, _ => []

/-- The dynamic-programming core of `levenshtein_distance` (the double loop
of the source, entered with `len s1 ≥ len s2 > 0`). -/
def levDP (s1 s2 : List Char) : Nat :=
  (s1.enum.foldl
    (fun prev ic => (ic.1 + 1) :: levRow ic.2 s2 prev (ic.1 + 1))
    (List.range (s2.length + 1))).getLastD 0

/-- `levenshtein_distance(s1, s2)` from the source: swap so the first string
is at least as long, return the other length when one is empty, else run the
row-by-row dynamic program. -/
def levenshtein_distance (s1 s2 : List Char) : Nat :=
  if s1.length < s2.length then
    if s1.length = 0 then s2.length else levDP s2 s1
  else
    if s2.length = 0 then s1.length else levDP s1 s2

/-- `common_prefix_len(a, b)` from the source:
`sum(1 for x, y in zip(a, b) if x == y)` — the number of positions (over the
zipped length) where the two strings agree, _not_ stopping at the first
mismatch. -/
def common_prefix_len (a b : Str) : Nat :=
  (a.zip b).countP (fun xy => xy.1 == xy.2)

/-- Modelled from the spec: the strict positional common-prefix length —
equal characters from index 0 up to the first mismatch only.  Used solely to
compare the spec's description of the matcher's prefix statistic with the
source's `common_prefix_len`. -/
def strictPrefLen : Str → Str → Nat
  | a :: as, b :: bs => if a = b then strictPrefLen as bs + 1 else 0
  | _, _ => 0

/-- `is_matching_title(title, expected_title, expected_ext)` from the source.
Both titles are lowered; the long branch (`len(e) >= 30`) uses percentage
thresholds, the short branch uses `max(2, len_diff)` and
`int(len(min(t, e)) * 0.85)` where `min(t, e)` is Python's lexicographic
minimum of the two lowered strings. -/
def is_matching_title (title expected_title expected_ext : Str) : Bool :=
  let t := pyLower title
  let e := pyLower expected_title
  let dist := levenshtein_distance t e
  let cp_len := common_prefix_len t e
  let len_diff := max t.length e.length - min t.length e.length
  if 30 ≤ e.length then
    let max_dist := e.length * 15 / 100
    let max_len_diff := e.length * 25 / 100
    let min_cp := e.length * 85 / 100
    if (pyLower expected_ext).isSuffixOf t = false then false
    else decide (dist ≤ max_dist) && decide (min_cp ≤ cp_len) && decide (len_diff ≤ max_len_diff)
  else
    if (pyLower expected_ext).isSuffixOf t = false then false
    else decide (dist ≤ max 2 len_diff) && decide ((pyMin t e).length * 85 / 100 ≤ cp_len)

/-- Helper for `splitExt`: split at the last `'.'` of the list, returning
the part before it and the part from it on; `none` when there is no dot. -/
def splitExtAux : Str → Option (Str × Str)
  | [] => none
  | c :: rest =>
    match splitExtAux rest with
    | some (st, ex) => some (c :: st, ex)
    | none => if c == '.' then some ([], '.' :: rest) else none

/-- `os.path.splitext` for a plain filename (no path separators): split at
the last dot, except when every character before it is a dot (then there is
no extension, e.g. `".bashrc"`). -/
def splitExt (f : Str) : Str × Str :=
  match splitExtAux f with
  | some (st, ex) => if st.all (fun c => c == '.') then (f, []) else (st, ex)
  | none => (f, [])

/-- Extension allow-list test `is_media_file(filename)` from the source. -/
def is_media_file (filename : Str) : Bool :=
  let e := pyLower (splitExt filename).2
  e == ".jpg".toList || e == ".jpeg".toList || e == ".png".toList || e == ".gif".toList ||
  e == ".bmp".toList || e == ".tiff".toList || e == ".heic".toList || e == ".heif".toList ||
  e == ".mp4".toList || e == ".mov".toList || e == ".avi".toList

/-- Split off a trailing parenthesized digit run: `dupSuffixSplit s` is
`some (b, "(ds)")` when `s = b ++ "(" ++ ds ++ ")"` with `ds` a non-empty
run of digits, and `none` otherwise.  This is the unique way the regex
`^(.*?)(\(\d+\))?$` can bind its second group. -/
def dupSuffixSplit (s : Str) : Option (Str × Str) :=
  match s.reverse with
  | ')' :: rest =>
    let ds := rest.takeWhile Char.isDigit
    match rest.dropWhile Char.isDigit with
    | '(' :: rem =>
      if ds.isEmpty then none else some (rem.reverse, '(' :: (ds.reverse ++ [')']))
    | _ => none
  | _ => none

/-- `parse_duplicate_number(name)` from the source: match the name against
`^(.*?)(\(\d+\))?$`.  Python's `$` also matches just before a single
trailing newline, and `.` never matches a newline, so the regex runs on the
name with one trailing newline removed and fails to match (returning
`(name, '')` unstripped) exactly when an interior newline remains.  On a
match, group 1 is `.strip()`-ped (both ends) and group 2 (or `''`) is
returned unchanged. -/
def parse_duplicate_number (name : Str) : Str × Str :=
  let s := if name.getLast? = some '\n' then name.dropLast else name
  if s.contains '\n' then (name, [])
  else
    match dupSuffixSplit s with
    | some (base, suf) => (pyStrip base, suf)
    | none => (pyStrip s, [])

/-- Digits-to-number conversion used for `int(num_suffix.strip('()'))`. -/
def digitsToNat (s : Str) : Nat :=
  s.foldl (fun a c => a * 10 + (c.toNat - '0'.toNat)) 0

/-- Parenthesis characters, for `str.strip('()')`. -/
def isParenChar (c : Char) : Bool := c == '(' || c == ')'

/-- `str.strip('()')`: remove leading and trailing parentheses. -/
def stripParens (s : Str) : Str :=
  ((s.dropWhile isParenChar).reverse.dropWhile isParenChar).reverse

/-- `custom_media_sort(filename)` from the source: the sort key
`(has_dup, dup_num, filename)` placing non-duplicates first, then ascending
duplicate index, then the filename itself. -/
def custom_media_sort (filename : Str) : Bool × Nat × Str :=
  let bn := parse_duplicate_number (splitExt filename).1
  (bn.2 != [], digitsToNat (stripParens bn.2), filename)

/-- Lexicographic strict order on `custom_media_sort` keys (Python tuple
comparison: `False < True`, then `Nat`, then string comparison). -/
def keyLt (k1 k2 : Bool × Nat × Str) : Bool :=
  (!k1.1 && k2.1) ||
  (k1.1 == k2.1 && (k1.2.1 < k2.2.1 || (k1.2.1 == k2.2.1 && strLt k1.2.2 k2.2.2)))

/-- Insert into a sorted list, after any element it is not strictly below
(so the overall sort is stable, like Python's `sorted`). -/
def insertSorted (lt : Str → Str → Bool) (x : Str) : List Str → List Str
  | [] => [x]
  | y :: ys => if lt x y then x :: y :: ys else y :: insertSorted lt x ys

/-- Stable sort by a strict comparison, modelling Python's `sorted`. -/
def stableSortBy (lt : Str → Str → Bool) (l : List Str) : List Str :=
  l.foldl (fun acc x => insertSorted lt x acc) []

/-- Helper for the glob matcher: split a bracket-set body at its closing
`']'`, returning the set characters and the rest of the pattern. -/
def splitAtClose : List Char → Option (List Char × List Char)
  | [] => none
  | ']' :: rest => some ([], rest)
  | c :: rest =>
    match splitAtClose rest with
    | some (s, r) => some (c :: s, r)
    | none => none

/-- Parse the body of a `[...]` glob set (the part after `'['`): handle a
leading `'!'` (negation) and a literal first `']'`; `none` when the set is
unterminated (then `'['` is a literal, as in `fnmatch.translate`). -/
def parseBracket (p : List Char) : Option (Bool × List Char × List Char) :=
  match p with
  | '!' :: p1 =>
    (match p1 with
     | ']' :: p2 =>
       (match splitAtClose p2 with
        | some (s, r) => some (true, ']' :: s, r)
        | none => none)
     | _ =>
       (match splitAtClose p1 with
        | some (s, r) => some (true, s, r)
        | none => none))
  | _ =>
    (match p with
     | ']' :: p2 =>
       (match splitAtClose p2 with
        | some (s, r) => some (false, ']' :: s, r)
        | none => none)
     | _ =>
       (match splitAtClose p with
        | some (s, r) => some (false, s, r)
        | none => none))

/-- Membership of a character in a glob set body, with `a-b` code-point
ranges (an inverted range matches nothing, as in current `fnmatch`) and
leading/trailing `'-'` literal. -/
def setMember (c : Char) : List Char → Bool
  | [] => false
  | a :: '-' :: b :: rest => (a.val ≤ c.val && c.val ≤ b.val) || setMember c rest
  | a :: rest => (c == a) || setMember c rest

/-- Fuel-indexed core of the glob matcher: every step consumes at least one
pattern or string element, so fuel above `p.length + s.length` is never
exhausted (the `0` case is unreachable from `matchGlob`).  The explicit fuel
keeps the recursion structural. -/
def matchGlobFuel : Nat → List Char → List Char → Bool
  | 0, _, _ => false
  | _ + 1, [], s => s.isEmpty
  | fuel + 1, '*' :: p, [] => matchGlobFuel fuel p []
  | fuel + 1, '*' :: p, c :: st =>
    matchGlobFuel fuel p (c :: st) || matchGlobFuel fuel ('*' :: p) st
  | _ + 1, '?' :: _, [] => false
  | fuel + 1, '?' :: p, _ :: st => matchGlobFuel fuel p st
  | _ + 1, '[' :: _, [] => false
  | fuel + 1, '[' :: p, c :: st =>
    (match parseBracket p with
     | some (neg, set, rest) => (neg != setMember c set) && matchGlobFuel fuel rest st
     | none => (c == '[') && matchGlobFuel fuel p st)
  | _ + 1, _ :: _, [] => false
  | fuel + 1, a :: p, c :: st => (a == c) && matchGlobFuel fuel p st

/-- The glob matcher behind `fnmatch.fnmatch` (case already normalised by
the callers, which lower both sides): `*` matches any sequence, `?` any one
character, `[...]` a set, everything else literally; the whole string must
be consumed (`\Z` anchor of `fnmatch.translate`). -/
def matchGlob (p s : List Char) : Bool :=
  matchGlobFuel (p.length + s.length + 1) p s

/-- A non-negative float parameter of the source (e.g. `min_prefix_factor`,
`avg_len`), modelled as an exact fraction `num / den`; every concrete value
in this file (0.7, 30, ...) is exactly representable, and the products
`int(len * factor)` taken in the source round identically under IEEE-754
doubles and under this exact model. -/
structure PyFloat where
  num : Nat
  den : Nat
deriving DecidableEq

/-- `os.path.join(dir, f)` for a relative filename. -/
def pathJoin (d f : Str) : Str := d ++ '/' :: f

/-- `json_titles.get(file, '')`: look a sidecar filename up in the title
cache, defaulting to the empty title. -/
def lookupTitle (cache : List (Str × Str)) (f : Str) : Str :=
  match cache.find? (fun kv => kv.1 == f) with
  | some kv => kv.2
  | none => []

/-- The tier-1 (exact suffix-vocabulary) and tier-2 (generic wildcard)
pattern list of `find_misnamed_json`, in source order: four shapes per
suffix variant, then the six `*metadata*` / bare-`*` glob shapes. -/
def tier12Patterns (base_name media_ext num_suffix : Str) (suffix_variants : List Str) : List Str :=
  (suffix_variants.map (fun s =>
    [base_name ++ media_ext ++ '.' :: (s ++ num_suffix ++ ".json".toList),
     base_name ++ media_ext ++ '.' :: (s ++ ".json".toList),
     base_name ++ '.' :: (s ++ num_suffix ++ ".json".toList),
     base_name ++ '.' :: (s ++ ".json".toList)])).flatten ++
  [base_name ++ media_ext ++ ".*metadata".toList ++ num_suffix ++ "*.json".toList,
   base_name ++ media_ext ++ ".*metadata*.json".toList,
   base_name ++ media_ext ++ ".*.json".toList,
   base_name ++ ".*metadata".toList ++ num_suffix ++ "*.json".toList,
   base_name ++ ".*metadata*.json".toList,
   base_name ++ ".*.json".toList]

/-- The inner file loop of the tier-1/2 pattern scan, for one pattern:
skip non-matching and already-used files, return (`Sum.inl`) on an exact
cached-title match, otherwise append `(json_path, title, dist)` to the
candidate accumulator. -/
def scanPat (dir_path expLower : Str) (json_titles : List (Str × Str)) (used_jsons : List Str)
    (pat : Str) : List Str → List (Str × Str × Nat) → Sum Str (List (Str × Str × Nat))
  | [], acc => Sum.inr acc
  | f :: fs, acc =>
    if matchGlob (pyLower pat) (pyLower f) then
      let jp := pathJoin dir_path f
      if jp ∈ used_jsons then scanPat dir_path expLower json_titles used_jsons pat fs acc
      else
        let title := lookupTitle json_titles f
        if pyLower title = expLower then Sum.inl jp
        else scanPat dir_path expLower json_titles used_jsons pat fs
          (acc ++ [(jp, title, levenshtein_distance (pyLower title) expLower)])
    else scanPat dir_path expLower json_titles used_jsons pat fs acc

/-- The outer pattern loop of the tier-1/2 scan over all patterns. -/
def scanPats (dir_path expLower : Str) (json_files : List Str) (json_titles : List (Str × Str))
    (used_jsons : List Str) : List Str → List (Str × Str × Nat) → Sum Str (List (Str × Str × Nat))
  | [], acc => Sum.inr acc
  | p :: ps, acc =>
    match scanPat dir_path expLower json_titles used_jsons p json_files acc with
    | Sum.inl jp => Sum.inl jp
    | Sum.inr acc2 => scanPats dir_path expLower json_files json_titles used_jsons ps acc2

/-- The fuzzy pass over the candidates gathered by the tier-1/2 scan:
return the first candidate the matcher accepts. -/
def fuzzyLoop (matcher : Str → Str → Str → Bool) (expected_title media_ext : Str) :
    List (Str × Str × Nat) → Option Str
  | [] => none
  | (jp, title, _) :: rest =>
    if matcher title expected_title media_ext then some jp
    else fuzzyLoop matcher expected_title media_ext rest

/-- The file loop of one truncated-pattern probe (tiers 3 and 4): skip
non-matching and used files; per candidate the exact cached-title test comes
first, then the fuzzy matcher. -/
def truncPatScan (matcher : Str → Str → Str → Bool) (dir_path expLower expected_title media_ext : Str)
    (json_titles : List (Str × Str)) (used_jsons : List Str) (pat : Str) : List Str → Option Str
  | [] => none
  | f :: fs =>
    if matchGlob (pyLower pat) (pyLower f) then
      let jp := pathJoin dir_path f
      if jp ∈ used_jsons then
        truncPatScan matcher dir_path expLower expected_title media_ext json_titles used_jsons pat fs
      else
        let title := lookupTitle json_titles f
        if pyLower title = expLower then some jp
        else if matcher title expected_title media_ext then some jp
        else truncPatScan matcher dir_path expLower expected_title media_ext json_titles used_jsons pat fs
    else truncPatScan matcher dir_path expLower expected_title media_ext json_titles used_jsons pat fs

/-- The probed truncation lengths: Python's
`range(n, minLen - 1, -step)` for `step ≥ 1` — from `n` down to the least
value `≥ minLen`, empty when `n < minLen`. -/
def truncLengths (n minLen step : Nat) : List Nat :=
  if n < minLen then []
  else (List.range ((n - minLen) / step + 1)).map (fun k => n - k * step)

/-- One truncation sweep (tier 3 over `base_name`, tier 4 over
`base_name + media_ext`): for each probed length, glob with the truncated
source followed by `*.json`. -/
def truncSweep (matcher : Str → Str → Str → Bool) (dir_path expLower expected_title media_ext : Str)
    (json_files : List Str) (json_titles : List (Str × Str)) (used_jsons : List Str)
    (src : Str) : List Nat → Option Str
  | [] => none
  | L :: Ls =>
    match truncPatScan matcher dir_path expLower expected_title media_ext json_titles used_jsons
        (src.take L ++ "*.json".toList) json_files with
    | some jp => some jp
    | none => truncSweep matcher dir_path expLower expected_title media_ext json_files json_titles
        used_jsons src Ls

/-- Python `int(n * factor)` for a non-negative fraction: the floor
`n * num / den` in integer arithmetic. -/
def pyIntMul (n : Nat) (factor : PyFloat) : Nat := n * factor.num / factor.den

/-- `find_misnamed_json` from the source, parametrised by the fuzzy accept
decision (`matcher`); the engine itself is `find_misnamed_json`, which
instantiates `matcher := is_matching_title`.  Tiers in order: the tier-1/2
pattern scan with its exact-title short-circuit, the fuzzy pass over the
gathered candidates, the truncated-`base_name` sweep, and the truncated
`base_name + media_ext` sweep.  `avg_len` is accepted and unused, as in the
source. -/
def find_misnamed_json_with (matcher : Str → Str → Str → Bool)
    (dir_path base_name media_ext num_suffix : Str)
    (json_files : List Str) (json_titles : List (Str × Str)) (used_jsons : List Str)
    (suffix_variants : List Str) (avg_len : PyFloat) (min_pref_factor : PyFloat) (step_divisor : Nat) :
    Option Str :=
  let fullPref := base_name ++ media_ext
  let expected_title := base_name ++ media_ext
  let expLower := pyLower expected_title
  match scanPats dir_path expLower json_files json_titles used_jsons
      (tier12Patterns base_name media_ext num_suffix suffix_variants) [] with
  | Sum.inl jp => some jp
  | Sum.inr cands =>
    match fuzzyLoop matcher expected_title media_ext cands with
    | some jp => some jp
    | none =>
      let minLen1 := max 20 (pyIntMul base_name.length min_pref_factor)
      let step1 := max 1 ((base_name.length - minLen1) / step_divisor)
      match truncSweep matcher dir_path expLower expected_title media_ext json_files json_titles
          used_jsons base_name (truncLengths base_name.length minLen1 step1) with
      | some jp => some jp
      | none =>
        let minLen2 := max 20 (pyIntMul fullPref.length min_pref_factor)
        let step2 := max 1 ((fullPref.length - minLen2) / step_divisor)
        truncSweep matcher dir_path expLower expected_title media_ext json_files json_titles
          used_jsons fullPref (truncLengths fullPref.length minLen2 step2)

/-- `find_misnamed_json` of the source: the candidate search with the
source's own fuzzy matcher. -/
def find_misnamed_json (dir_path base_name media_ext num_suffix : Str)
    (json_files : List Str) (json_titles : List (Str × Str)) (used_jsons : List Str)
    (suffix_variants : List Str) (avg_len : PyFloat) (min_pref_factor : PyFloat) (step_divisor : Nat) :
    Option Str :=
  find_misnamed_json_with is_matching_title dir_path base_name media_ext num_suffix
    json_files json_titles used_jsons suffix_variants avg_len min_pref_factor step_divisor

/-- Per-directory mutable state of `process_directory`: the filesystem
(existing paths) and the `used_jsons` set (as a list of paths). -/
structure DirState where
  fs : List Str
  used : List Str
deriving DecidableEq

/-- Per-directory configuration of `process_directory`: the directory path,
mode flags and tuning values, the pre-filtered `json_files` list and the
title cache of `load_json_titles`. -/
structure DirCfg where
  dirp : Str
  dry_run : Bool
  suffix_variants : List Str
  avg_len : PyFloat
  min_pref_factor : PyFloat
  step_divisor : Nat
  json_files : List Str
  json_titles : List (Str × Str)

/-- What `process_directory` does for one media file.  `renamed` covers both
an actual and a simulated (dry-run) rename; `renameFailed` is the real-mode
`os.rename` exception path; `alreadyCanonical` is the
`json_path == preferred_json_path` branch. -/
inductive Outcome where
  | noMatch (media : Str)
  | conflict (media json : Str)
  | renamed (media json preferred : Str)
  | renameFailed (media json preferred : Str)
  | alreadyCanonical (media json : Str)
deriving DecidableEq

/-- The canonical sidecar filename
`f"{base_name}{num_suffix}{media_ext}.supplemental-metadata.json"`. -/
def preferredNameOf (base_name num_suffix media_ext : Str) : Str :=
  base_name ++ num_suffix ++ media_ext ++ ".supplemental-metadata.json".toList

/-- The body of the `for file in media_files` loop of `process_directory`
for one media file: run `find_misnamed_json`, then the
preferred-path/conflict/rename/dry-run logic of the source (lines 382-417).
A real rename succeeds exactly when the source path exists; on success the
filesystem is updated and the _new_ path is added to `used_jsons`, while in
dry-run mode the _matched_ path is added and the filesystem is untouched. -/
def processOne (cfg : DirCfg) (st : DirState) (file : Str) : DirState × Outcome :=
  let full_media_path := pathJoin cfg.dirp file
  let media_name := (splitExt file).1
  let media_ext := (splitExt file).2
  let bn := parse_duplicate_number media_name
  match find_misnamed_json cfg.dirp bn.1 media_ext bn.2 cfg.json_files cfg.json_titles st.used
      cfg.suffix_variants cfg.avg_len cfg.min_pref_factor cfg.step_divisor with
  | none => (st, Outcome.noMatch full_media_path)
  | some jp =>
    let preferred_json_path := pathJoin cfg.dirp (preferredNameOf bn.1 bn.2 media_ext)
    if jp ≠ preferred_json_path then
      if preferred_json_path ∈ st.fs then
        (st, Outcome.conflict full_media_path jp)
      else if cfg.dry_run = false then
        if jp ∈ st.fs then
          (⟨preferred_json_path :: st.fs.erase jp, st.used ++ [preferred_json_path]⟩,
            Outcome.renamed full_media_path jp preferred_json_path)
        else
          (st, Outcome.renameFailed full_media_path jp preferred_json_path)
      else
        (⟨st.fs, st.used ++ [jp]⟩, Outcome.renamed full_media_path jp preferred_json_path)
    else
      (⟨st.fs, st.used ++ [jp]⟩, Outcome.alreadyCanonical full_media_path jp)

/-- The `renamed` flag of the source after one media file: true exactly when
a rename succeeded, was simulated, or was unnecessary. -/
def renamedFlag : Outcome → Bool
  | Outcome.renamed _ _ _ => true
  | Outcome.alreadyCanonical _ _ => true
  | _ => false

/-- Line 413 of the source: `if do_embed and renamed:` — whether
`embed_metadata` is invoked for this media file's outcome. -/
def embedsTriggered (do_embed : Bool) (ev : Outcome) : Bool :=
  do_embed && renamedFlag ev

/-- The media-file loop of `process_directory`: thread the directory state
through `processOne` over the sorted media files, collecting outcomes. -/
def runMedia (cfg : DirCfg) : DirState → List Str → List Outcome
  | _, [] => []
  | st, f :: fs =>
    let r := processOne cfg st f
    r.2 :: runMedia cfg r.1 fs

/-- One directory of `process_directory`'s `os.walk` loop: filter and sort
the media files, filter the sidecar files, build the title cache
(`load_json_titles`, with the sidecar file contents supplied externally as
`titleData`), then run the media loop from a fresh `used_jsons` and the
listed files as the filesystem.  Metadata embedding does not influence
reconciliation (it never touches `*.json` paths), so outcomes record via
`embedsTriggered` when it would run instead of modelling its effects. -/
def process_directory (dirp : Str) (dry_run : Bool) (suffix_variants : List Str)
    (avg_len min_pref_factor : PyFloat) (step_divisor : Nat)
    (files : List Str) (titleData : List (Str × Str)) : List Outcome :=
  let media0 := files.filter is_media_file
  let media := stableSortBy (fun a b => keyLt (custom_media_sort a) (custom_media_sort b)) media0
  let jsons := files.filter (fun f => ".json".toList.isSuffixOf (pyLower f))
  let titles := jsons.map (fun j => (j, lookupTitle titleData j))
  let cfg : DirCfg := ⟨dirp, dry_run, suffix_variants, avg_len, min_pref_factor, step_divisor,
    jsons, titles⟩
  runMedia cfg ⟨files.map (pathJoin dirp), []⟩ media

/-- The sidecar path returned by `find_misnamed_json` for each media file
that got a match, in processing order. -/
def matchedSidecars (evs : List Outcome) : List Str :=
  evs.filterMap fun e =>
    match e with
    | Outcome.noMatch _ => none
    | Outcome.conflict _ j => some j
    | Outcome.renamed _ j _ => some j
    | Outcome.renameFailed _ j _ => some j
    | Outcome.alreadyCanonical _ j => some j

/-- The resolutions `(media path, matched sidecar path, needsRename)` in
processing order;  `needsRename` is `json_path != preferred_json_path`. -/
def resolutionsOf (evs : List Outcome) : List (Str × Str × Bool) :=
  evs.filterMap fun e =>
    match e with
    | Outcome.noMatch _ => none
    | Outcome.conflict m j => some (m, j, true)
    | Outcome.renamed m j _ => some (m, j, true)
    | Outcome.renameFailed m j _ => some (m, j, true)
    | Outcome.alreadyCanonical m j => some (m, j, false)

/-- Shorthand for building character lists from literals. -/
def chars (s : String) : Str := s.toList

/-- Modelled from the spec (claim C4's reading): the short-title accept rule
with the prefix threshold `floor(0.85 * min(len(observed), len(expected)))`,
`min` taken over the two LENGTHS. -/
def acceptsShortLenMin (title expected_title expected_ext : Str) : Bool :=
  let t := pyLower title
  let e := pyLower expected_title
  let dist := levenshtein_distance t e
  let cp_len := common_prefix_len t e
  let len_diff := max t.length e.length - min t.length e.length
  (pyLower expected_ext).isSuffixOf t && decide (dist ≤ max 2 len_diff) &&
    decide (min t.length e.length * 85 / 100 ≤ cp_len)

/-- The short-title accept rule as the source actually computes it: the
prefix threshold is `floor(0.85 * len(min(t, e)))` with Python's
lexicographic `min` of the two lowered strings. -/
def acceptsShortLexMin (title expected_title expected_ext : Str) : Bool :=
  let t := pyLower title
  let e := pyLower expected_title
  let dist := levenshtein_distance t e
  let cp_len := common_prefix_len t e
  let len_diff := max t.length e.length - min t.length e.length
  (pyLower expected_ext).isSuffixOf t && decide (dist ≤ max 2 len_diff) &&
    decide ((pyMin t e).length * 85 / 100 ≤ cp_len)

/-- Directory listing for the duplicate scenario: a base media file, its
`(1)` duplicate, and one sidecar whose title names the base file. -/
def filesA : List Str := [chars "IMG_01.jpg", chars "IMG_01(1).jpg", chars "IMG_01.jpg.json"]

/-- Sidecar contents for the duplicate scenario. -/
def titleDataA : List (Str × Str) := [(chars "IMG_01.jpg.json", chars "IMG_01.jpg")]

/-- A 60-character base name whose first 44 characters are `'a'`. -/
def baseC9 : Str := List.replicate 44 'a' ++ List.replicate 16 'b'

/-- A sidecar filename matching only the 44-character truncated prefix of
`baseC9`. -/
def sidecarC9 : Str := List.replicate 44 'a' ++ chars ".json"

/-- Claim C1 (failing input, real-rename mode): with media files
`IMG_01.jpg` and `IMG_01(1).jpg` and the single sidecar `IMG_01.jpg.json`
titled `IMG_01.jpg`, real mode adds the _renamed_ path to `used_jsons`
while `json_files` keeps the stale old name, so `find_misnamed_json`
returns the very same sidecar path for both media files; dry-run mode adds
the matched path and assigns it only once.  This falsifies the claimed
injectivity of the sidecar assignment "in both dry-run and real-rename
modes". -/
theorem c1_real_mode_double_assignment :
    matchedSidecars (process_directory (chars "d") false [chars "supplemental-metadata"]
        ⟨30, 1⟩ ⟨7, 10⟩ 20 filesA titleDataA)
      = [chars "d/IMG_01.jpg.json", chars "d/IMG_01.jpg.json"] ∧
    matchedSidecars (process_directory (chars "d") true [chars "supplemental-metadata"]
        ⟨30, 1⟩ ⟨7, 10⟩ 20 filesA titleDataA)
      = [chars "d/IMG_01.jpg.json"] := by
  constructor <;> rfl

/-- Claim C2 (failing input): on the same directory, the resolution
sequences `(media path, matched sidecar path, needsRename)` computed in
dry-run and in real mode differ — the duplicate resolves to the already
consumed sidecar in real mode and to nothing in dry-run — so the
reconciliation decisions are not identical in the two modes. -/
theorem c2_dry_real_resolutions_differ :
    resolutionsOf (process_directory (chars "d") true [chars "supplemental-metadata"]
        ⟨30, 1⟩ ⟨7, 10⟩ 20 filesA titleDataA)
      ≠ resolutionsOf (process_directory (chars "d") false [chars "supplemental-metadata"]
        ⟨30, 1⟩ ⟨7, 10⟩ 20 filesA titleDataA) := by
  decide

/-- Claim C5 (counterexample): the matcher's prefix statistic is not the
strict positional common-prefix length — on `"axc"`/`"ayc"` the source's
`common_prefix_len` also counts the agreeing `'c'` after the first mismatch
and returns 2, while the claimed strict prefix is 1. -/
theorem c5_counterexample :
    common_prefix_len (chars "axc") (chars "ayc") ≠ strictPrefLen (chars "axc") (chars "ayc") ∧
    common_prefix_len (chars "axc") (chars "ayc") = 2 ∧
    strictPrefLen (chars "axc") (chars "ayc") = 1 := by
  decide

/-- Claim C4 (counterexample): for observed `"aac"`, expected `"ab"`,
extension `"c"` — a short pair ending in the expected extension — every
accept condition of the claim holds with `min` taken over the two lengths
(distance 2 ≤ max(2,1), prefix 1 ≥ floor(0.85·2) = 1), yet the source
rejects, because it computes the threshold from the LEXICOGRAPHICALLY
smaller string `min("aac","ab") = "aac"` of length 3, giving
floor(0.85·3) = 2 > 1. -/
theorem c4_counterexample :
    (pyLower (chars "ab")).length < 30 ∧
    acceptsShortLenMin (chars "aac") (chars "ab") (chars "c") = true ∧
    is_matching_title (chars "aac") (chars "ab") (chars "c") = false := by
  decide

/-- Claim C7 (counterexample): `"abc "` does not end in a parenthesized
integer, so the claim demands `(baseName, duplicateSuffix) = ("abc ", "")`
with the full unmodified string; the source's `.strip()` removes the
trailing blank and returns `("abc", "")`. -/
theorem c7_counterexample :
    parse_duplicate_number (chars "abc ") ≠ (chars "abc ", ([] : Str)) ∧
    parse_duplicate_number (chars "abc ") = (chars "abc", ([] : Str)) := by
  decide

/-- Claim C3 (counterexample): the sidecar `zzz.json` has cached title
exactly `IMG_01.jpg`, the expected title of media base `IMG_01` with
extension `.jpg`, yet `find_misnamed_json` returns nothing: the sidecar's
filename matches no probed pattern, so resolution does not "succeed via the
exact-title path whenever some sidecar's cached title equals {base}{ext}". -/
theorem c3_counterexample :
    pyLower (lookupTitle [(chars "zzz.json", chars "IMG_01.jpg")] (chars "zzz.json"))
      = pyLower (chars "IMG_01" ++ chars ".jpg") ∧
    find_misnamed_json (chars "d") (chars "IMG_01") (chars ".jpg") []
      [chars "zzz.json"] [(chars "zzz.json", chars "IMG_01.jpg")] []
      [chars "supplemental-metadata"] ⟨30, 1⟩ ⟨7, 10⟩ 20 = none := by
  decide

/-- Claim C6: for every observed title, expected title and non-empty
expected extension, if the lowered observed title does not end with the
lowered extension then the matcher rejects — in both the long and the short
branch, regardless of edit distance, common prefix, or length difference. -/
theorem c6_extension_gate (title expected_title expected_ext : Str)
    (hne : expected_ext ≠ [])
    (h : (pyLower expected_ext).isSuffixOf (pyLower title) = false) :
    is_matching_title title expected_title expected_ext = false := by
  simp [is_matching_title, h]

/-- Claim C6 witness: expected extension `.mp4`, observed title `a.mov`
(stem distance 0) is rejected. -/
theorem c6_extension_gate_witness :
    is_matching_title (chars "a.mov") (chars "a.mp4") (chars ".mp4") = false :=
  c6_extension_gate (chars "a.mov") (chars "a.mp4") (chars ".mp4") (by decide) (by decide)

/-- Claim C4 (amended): for expected titles of lowered length below 30, the
matcher's accept decision is exactly the short rule: the observed title must
end with the expected extension, the edit distance must be at most
`max(2, |len t − len e|)`, and the agreement count must be at least
`floor(0.85 · len(min(t, e)))` where `min(t, e)` is Python's LEXICOGRAPHIC
minimum of the two lowered titles (not the minimum of the two lengths). -/
theorem c4_amended_short_rule (title expected_title expected_ext : Str)
    (h30 : expected_title.length < 30) :
    is_matching_title title expected_title expected_ext
      = acceptsShortLexMin title expected_title expected_ext := by
  have hlen : (pyLower expected_title).length = expected_title.length := List.length_map _ _
  simp only [is_matching_title, acceptsShortLexMin]
  rw [if_neg (by omega)]
  cases hsuf : (pyLower expected_ext).isSuffixOf (pyLower title) <;> simp [hsuf]

/-- Claim C4 witness: the amended rule applied at a concrete short pair. -/
theorem c4_amended_short_rule_witness :
    is_matching_title (chars "ab.jpg") (chars "ab.jpg") (chars ".jpg")
      = acceptsShortLexMin (chars "ab.jpg") (chars "ab.jpg") (chars ".jpg") :=
  c4_amended_short_rule (chars "ab.jpg") (chars "ab.jpg") (chars ".jpg") (by decide)

/-- `common_prefix_len` on a cons pair: one agreement plus the tail count. -/
theorem common_prefix_len_cons (x y : Char) (a b : Str) :
    common_prefix_len (x :: a) (y :: b)
      = (if x = y then 1 else 0) + common_prefix_len a b := by
  simp only [common_prefix_len, List.zip_cons_cons, List.countP_cons]
  by_cases h : x = y <;> simp [h, Nat.add_comm]

/-- Claim C5 (amended): the matcher's prefix statistic is the number of ALL
positions below the zipped length where the two strings agree — positions
after the first mismatch do contribute — and in particular it is bounded
below by the strict positional common-prefix length. -/
theorem c5_amended_agreement_count (a : Str) : ∀ b : Str,
    common_prefix_len a b
      = (List.range (min a.length b.length)).countP (fun i => a.getD i 'a' == b.getD i 'a') ∧
    strictPrefLen a b ≤ common_prefix_len a b := by
  induction a with
  | nil => intro b; simp [common_prefix_len, strictPrefLen]
  | cons x a ih =>
    intro b
    cases b with
    | nil => simp [common_prefix_len, strictPrefLen]
    | cons y b =>
      obtain ⟨ih1, ih2⟩ := ih b
      constructor
      · rw [common_prefix_len_cons, List.length_cons, List.length_cons,
          Nat.succ_min_succ, List.range_succ_eq_map, List.countP_cons, List.countP_map]
        have hcomp :
            ((fun i => (x :: a).getD i 'a' == (y :: b).getD i 'a') ∘ Nat.succ)
              = (fun i => a.getD i 'a' == b.getD i 'a') := by
          funext i
          simp [Function.comp, List.getD_cons_succ]
        rw [hcomp, ← ih1]
        by_cases h : x = y <;> simp [h, Nat.add_comm]
      · rw [common_prefix_len_cons]
        simp only [strictPrefLen]
        by_cases h : x = y
        · simp only [if_pos h]
          omega
        · simp only [if_neg h]
          omega

/-- Claim C9: for any base name of length 60 with `min_prefix_factor` 0.7
and `step_divisor` 15, the truncation sweep's minimum length is
`max(20, floor(60·0.7)) = 42` and its step is `max(1, (60−42)/15) = 1`, so
it probes exactly the lengths 60, 59, ..., 42 — in particular length 44 —
and on a concrete 60-character base with a sidecar matching only the
44-character truncated prefix, `find_misnamed_json` returns that sidecar. -/
theorem c9_truncation_sweep (base : Str) (h : base.length = 60) :
    max 20 (pyIntMul base.length ⟨7, 10⟩) = 42 ∧
    max 1 ((base.length - max 20 (pyIntMul base.length ⟨7, 10⟩)) / 15) = 1 ∧
    truncLengths base.length (max 20 (pyIntMul base.length ⟨7, 10⟩))
        (max 1 ((base.length - max 20 (pyIntMul base.length ⟨7, 10⟩)) / 15))
      = (List.range 19).map (fun k => 60 - k) ∧
    (44 : Nat) ∈ truncLengths base.length (max 20 (pyIntMul base.length ⟨7, 10⟩))
        (max 1 ((base.length - max 20 (pyIntMul base.length ⟨7, 10⟩)) / 15)) ∧
    find_misnamed_json (chars "d") baseC9 (chars ".jpg") [] [sidecarC9]
      [(sidecarC9, baseC9 ++ chars ".jpg")] [] [chars "supplemental-metadata"] ⟨30, 1⟩ ⟨7, 10⟩ 15
      = some (pathJoin (chars "d") sidecarC9) := by
  rw [h]
  decide

/-- Claim C9 witness: the sweep facts at the concrete 60-character base. -/
theorem c9_truncation_sweep_witness :
    max 20 (pyIntMul baseC9.length ⟨7, 10⟩) = 42 ∧
    max 1 ((baseC9.length - max 20 (pyIntMul baseC9.length ⟨7, 10⟩)) / 15) = 1 ∧
    truncLengths baseC9.length (max 20 (pyIntMul baseC9.length ⟨7, 10⟩))
        (max 1 ((baseC9.length - max 20 (pyIntMul baseC9.length ⟨7, 10⟩)) / 15))
      = (List.range 19).map (fun k => 60 - k) ∧
    (44 : Nat) ∈ truncLengths baseC9.length (max 20 (pyIntMul baseC9.length ⟨7, 10⟩))
        (max 1 ((baseC9.length - max 20 (pyIntMul baseC9.length ⟨7, 10⟩)) / 15)) ∧
    find_misnamed_json (chars "d") baseC9 (chars ".jpg") [] [sidecarC9]
      [(sidecarC9, baseC9 ++ chars ".jpg")] [] [chars "supplemental-metadata"] ⟨30, 1⟩ ⟨7, 10⟩ 15
      = some (pathJoin (chars "d") sidecarC9) :=
  c9_truncation_sweep baseC9 (by decide)

/-- Claim C8: whenever `find_misnamed_json` matched a sidecar for a media
file, the canonical target path already exists in the filesystem and differs
from the matched path, the engine emits the conflict outcome for that media
file, leaves the filesystem and the assignment set unchanged (no rename),
never triggers `embed_metadata` for it, and continues with the remaining
media files from the same state. -/
theorem c8_conflict_skips (cfg : DirCfg) (st : DirState) (file : Str) (rest : List Str) (jp : Str)
    (hfind : find_misnamed_json cfg.dirp (parse_duplicate_number (splitExt file).1).1
        (splitExt file).2 (parse_duplicate_number (splitExt file).1).2 cfg.json_files
        cfg.json_titles st.used cfg.suffix_variants cfg.avg_len cfg.min_pref_factor
        cfg.step_divisor = some jp)
    (hne : jp ≠ pathJoin cfg.dirp (preferredNameOf (parse_duplicate_number (splitExt file).1).1
        (parse_duplicate_number (splitExt file).1).2 (splitExt file).2))
    (hex : pathJoin cfg.dirp (preferredNameOf (parse_duplicate_number (splitExt file).1).1
        (parse_duplicate_number (splitExt file).1).2 (splitExt file).2) ∈ st.fs) :
    processOne cfg st file = (st, Outcome.conflict (pathJoin cfg.dirp file) jp) ∧
    runMedia cfg st (file :: rest)
      = Outcome.conflict (pathJoin cfg.dirp file) jp :: runMedia cfg st rest ∧
    ∀ do_embed : Bool,
      embedsTriggered do_embed (Outcome.conflict (pathJoin cfg.dirp file) jp) = false := by
  have h1 : processOne cfg st file = (st, Outcome.conflict (pathJoin cfg.dirp file) jp) := by
    simp only [processOne, hfind]
    rw [if_pos hne, if_pos hex]
  refine ⟨h1, ?_, ?_⟩
  · simp only [runMedia, h1]
  · intro do_embed
    simp [embedsTriggered, renamedFlag]

/-- Claim C8 witness: a concrete directory state where the canonical target
`d/a.jpg.supplemental-metadata.json` already exists and differs from the
matched sidecar `d/a.md.json`. -/
theorem c8_conflict_skips_witness :
    processOne
        ⟨chars "d", false, [chars "md"], ⟨30, 1⟩, ⟨7, 10⟩, 20,
          [chars "a.md.json"], [(chars "a.md.json", chars "a.jpg")]⟩
        ⟨[chars "d/a.jpg.supplemental-metadata.json"], []⟩ (chars "a.jpg")
      = (⟨[chars "d/a.jpg.supplemental-metadata.json"], []⟩,
          Outcome.conflict (pathJoin (chars "d") (chars "a.jpg")) (chars "d/a.md.json")) ∧
    runMedia
        ⟨chars "d", false, [chars "md"], ⟨30, 1⟩, ⟨7, 10⟩, 20,
          [chars "a.md.json"], [(chars "a.md.json", chars "a.jpg")]⟩
        ⟨[chars "d/a.jpg.supplemental-metadata.json"], []⟩ (chars "a.jpg" :: [])
      = Outcome.conflict (pathJoin (chars "d") (chars "a.jpg")) (chars "d/a.md.json")
          :: runMedia
            ⟨chars "d", false, [chars "md"], ⟨30, 1⟩, ⟨7, 10⟩, 20,
              [chars "a.md.json"], [(chars "a.md.json", chars "a.jpg")]⟩
            ⟨[chars "d/a.jpg.supplemental-metadata.json"], []⟩ [] ∧
    ∀ do_embed : Bool,
      embedsTriggered do_embed
          (Outcome.conflict (pathJoin (chars "d") (chars "a.jpg")) (chars "d/a.md.json"))
        = false :=
  c8_conflict_skips
    ⟨chars "d", false, [chars "md"], ⟨30, 1⟩, ⟨7, 10⟩, 20,
      [chars "a.md.json"], [(chars "a.md.json", chars "a.jpg")]⟩
    ⟨[chars "d/a.jpg.supplemental-metadata.json"], []⟩ (chars "a.jpg") [] (chars "d/a.md.json")
    (by decide) (by decide) (by decide)

/-- `takeWhile`/`dropWhile` on a list whose front all satisfies `p` followed
by a failing character: the split lands exactly at that character. -/
theorem takeWhile_all_append {p : Char → Bool} (l1 : Str) (c : Char) (l2 : Str)
    (h1 : l1.all p = true) (h2 : p c = false) :
    (l1 ++ c :: l2).takeWhile p = l1 ∧ (l1 ++ c :: l2).dropWhile p = c :: l2 := by
  induction l1 with
  | nil => simp [List.takeWhile_cons, List.dropWhile_cons, h2]
  | cons a l1 ih =>
    simp only [List.all_cons, Bool.and_eq_true] at h1
    obtain ⟨ha, hall⟩ := h1
    obtain ⟨iht, ihd⟩ := ih hall
    simp [List.takeWhile_cons, List.dropWhile_cons, ha, iht, ihd]

/-- Completeness of the duplicate-suffix split: any string that ends in a
parenthesized non-empty digit run is split at exactly that run. -/
theorem dupSuffixSplit_complete (b ds : Str) (hne : ds ≠ []) (hd : ds.all Char.isDigit = true) :
    dupSuffixSplit (b ++ '(' :: ds ++ [')']) = some (b, '(' :: ds ++ [')']) := by
  have hrev : (b ++ '(' :: ds ++ [')']).reverse = ')' :: (ds.reverse ++ '(' :: b.reverse) := by
    simp [List.reverse_append]
  have hall : ds.reverse.all Char.isDigit = true := by
    rw [List.all_reverse]; exact hd
  have hdig : Char.isDigit '(' = false := by decide
  obtain ⟨ht, hdp⟩ := takeWhile_all_append ds.reverse '(' b.reverse hall hdig
  have hempty : ds.reverse.isEmpty = false := by
    cases hds : ds.reverse with
    | nil => exact absurd (by simpa using congrArg List.reverse hds) hne
    | cons x xs => simp
  simp only [dupSuffixSplit, hrev, ht, hdp, hempty, Bool.false_eq_true, if_false,
    List.reverse_reverse]
  rfl

/-- Soundness of the duplicate-suffix split: a successful split exhibits the
trailing parenthesized non-empty digit run. -/
theorem dupSuffixSplit_sound (s b suf : Str) (h : dupSuffixSplit s = some (b, suf)) :
    ∃ ds : Str, ds ≠ [] ∧ ds.all Char.isDigit = true ∧ suf = '(' :: ds ++ [')'] ∧
      s = b ++ suf := by
  simp only [dupSuffixSplit] at h
  split at h
  case _ rest heq =>
    split at h
    case _ rem heq2 =>
      split at h
      case isTrue => exact absurd h (by simp)
      case isFalse hemp =>
        simp only [Option.some.injEq, Prod.mk.injEq] at h
        obtain ⟨hb, hsuf⟩ := h
        refine ⟨(rest.takeWhile Char.isDigit).reverse, ?_, ?_, hsuf.symm, ?_⟩
        · intro hnil
          apply hemp
          have : rest.takeWhile Char.isDigit = [] := by
            simpa using congrArg List.reverse hnil
          simp [this]
        · rw [List.all_reverse]; exact List.all_takeWhile
        · have hsplit : rest.takeWhile Char.isDigit ++ rest.dropWhile Char.isDigit = rest :=
            List.takeWhile_append_dropWhile Char.isDigit rest
          have hs : s = s.reverse.reverse := (List.reverse_reverse s).symm
          rw [hs, heq]
          rw [← hsplit, heq2, ← hb, ← hsuf]
          simp [List.reverse_append]
    all_goals exact absurd h (by simp)
  case _ => exact absurd h (by simp)

/-- Claim C7 (amended): for every input string without newline characters
the split is total and is characterised as follows — if the string ends in a
parenthesized non-empty digit run `(N)`, `duplicateSuffix = "(N)"` with the
parentheses retained and `baseName` is the remainder with LEADING AND
TRAILING whitespace stripped (Python `.strip()`, not only trailing); and
otherwise `duplicateSuffix = ""` and `baseName` is the full string, again
with leading and trailing whitespace stripped (not the unmodified string).
No input causes an error. -/
theorem c7_amended_split (name : Str) (h : name.contains '\n' = false) :
    (∃ b ds : Str, ds ≠ [] ∧ ds.all Char.isDigit = true ∧ name = b ++ '(' :: ds ++ [')'] ∧
        parse_duplicate_number name = (pyStrip b, '(' :: ds ++ [')'])) ∨
    ((¬ ∃ b ds : Str, ds ≠ [] ∧ ds.all Char.isDigit = true ∧ name = b ++ '(' :: ds ++ [')']) ∧
        parse_duplicate_number name = (pyStrip name, [])) := by
  have hmem : '\n' ∉ name := by
    intro hm
    have h2 : name.contains '\n' = true := List.elem_eq_true_of_mem hm
    rw [h] at h2
    exact Bool.false_ne_true h2
  have hlast : ¬ name.getLast? = some '\n' := by
    intro hl
    exact hmem (List.mem_of_mem_getLast? hl)
  have hbody : parse_duplicate_number name =
      (match dupSuffixSplit name with
       | some (base, suf) => (pyStrip base, suf)
       | none => (pyStrip name, [])) := by
    simp only [parse_duplicate_number, if_neg hlast]
    rw [if_neg (by simpa using hmem)]
  cases hsplit : dupSuffixSplit name with
  | some bs =>
    obtain ⟨ds, hne, hd, hsuf, hs⟩ := dupSuffixSplit_sound name bs.1 bs.2 (by rw [hsplit])
    left
    refine ⟨bs.1, ds, hne, hd, by rw [hs, hsuf]; simp, ?_⟩
    rw [hbody, hsplit, ← hsuf]
  | none =>
    right
    constructor
    · rintro ⟨b, ds, hne, hd, hdecomp⟩
      have := dupSuffixSplit_complete b ds hne hd
      rw [← hdecomp] at this
      rw [hsplit] at this
      exact absurd this (by simp)
    · rw [hbody, hsplit]

/-- Claim C7 witness: the amended characterisation applied at `"abc(12)"`. -/
theorem c7_amended_split_witness :
    (∃ b ds : Str, ds ≠ [] ∧ ds.all Char.isDigit = true ∧
        chars "abc(12)" = b ++ '(' :: ds ++ [')'] ∧
        parse_duplicate_number (chars "abc(12)") = (pyStrip b, '(' :: ds ++ [')'])) ∨
    ((¬ ∃ b ds : Str, ds ≠ [] ∧ ds.all Char.isDigit = true ∧
        chars "abc(12)" = b ++ '(' :: ds ++ [')']) ∧
        parse_duplicate_number (chars "abc(12)") = (pyStrip (chars "abc(12)"), [])) :=
  c7_amended_split (chars "abc(12)") (by decide)

/-- Every early return of the tier-1/2 file loop is an unused
pattern-matching sidecar whose cached title equals the expected title
(case-insensitively). -/
theorem scanPat_inl_sound (dir_path expLower : Str) (json_titles : List (Str × Str))
    (used_jsons : List Str) (pat : Str) :
    ∀ (files : List Str) (acc : List (Str × Str × Nat)) (jp : Str),
      scanPat dir_path expLower json_titles used_jsons pat files acc = Sum.inl jp →
      ∃ f : Str, jp = pathJoin dir_path f ∧ pyLower (lookupTitle json_titles f) = expLower ∧
        jp ∉ used_jsons := by
  intro files
  induction files with
  | nil => intro acc jp h; exact absurd h (by simp [scanPat])
  | cons f fs ih =>
    intro acc jp h
    by_cases hg : matchGlob (pyLower pat) (pyLower f) = true
    · by_cases hu : pathJoin dir_path f ∈ used_jsons
      · rw [scanPat, if_pos hg, if_pos hu] at h
        exact ih _ _ h
      · by_cases he : pyLower (lookupTitle json_titles f) = expLower
        · rw [scanPat, if_pos hg, if_neg hu, if_pos he] at h
          cases h
          exact ⟨f, rfl, he, hu⟩
        · rw [scanPat, if_pos hg, if_neg hu, if_neg he] at h
          exact ih _ _ h
    · rw [scanPat, if_neg hg] at h
      exact ih _ _ h

/-- The tier-1/2 file loop only appends well-formed candidates: each carries
the joined path and the cached title of some sidecar file. -/
theorem scanPat_inr_acc (dir_path expLower : Str) (json_titles : List (Str × Str))
    (used_jsons : List Str) (pat : Str) :
    ∀ (files : List Str) (acc acc2 : List (Str × Str × Nat)),
      scanPat dir_path expLower json_titles used_jsons pat files acc = Sum.inr acc2 →
      (∀ c ∈ acc, ∃ f : Str, c.1 = pathJoin dir_path f ∧ c.2.1 = lookupTitle json_titles f) →
      (∀ c ∈ acc2, ∃ f : Str, c.1 = pathJoin dir_path f ∧ c.2.1 = lookupTitle json_titles f) := by
  intro files
  induction files with
  | nil =>
    intro acc acc2 h hacc
    rw [scanPat] at h
    cases h
    exact hacc
  | cons f fs ih =>
    intro acc acc2 h hacc
    by_cases hg : matchGlob (pyLower pat) (pyLower f) = true
    · by_cases hu : pathJoin dir_path f ∈ used_jsons
      · rw [scanPat, if_pos hg, if_pos hu] at h
        exact ih _ _ h hacc
      · by_cases he : pyLower (lookupTitle json_titles f) = expLower
        · rw [scanPat, if_pos hg, if_neg hu, if_pos he] at h
          exact absurd h (by simp)
        · rw [scanPat, if_pos hg, if_neg hu, if_neg he] at h
          refine ih _ _ h ?_
          intro c hc
          rcases List.mem_append.mp hc with hc1 | hc2
          · exact hacc c hc1
          · rcases List.mem_singleton.mp hc2 with rfl
            exact ⟨f, rfl, rfl⟩
    · rw [scanPat, if_neg hg] at h
      exact ih _ _ h hacc

/-- Lifting of `scanPat_inl_sound` to the whole pattern loop. -/
theorem scanPats_inl_sound (dir_path expLower : Str) (json_files : List Str)
    (json_titles : List (Str × Str)) (used_jsons : List Str) :
    ∀ (pats : List Str) (acc : List (Str × Str × Nat)) (jp : Str),
      scanPats dir_path expLower json_files json_titles used_jsons pats acc = Sum.inl jp →
      ∃ f : Str, jp = pathJoin dir_path f ∧ pyLower (lookupTitle json_titles f) = expLower ∧
        jp ∉ used_jsons := by
  intro pats
  induction pats with
  | nil => intro acc jp h; exact absurd h (by simp [scanPats])
  | cons p ps ih =>
    intro acc jp h
    cases hsc : scanPat dir_path expLower json_titles used_jsons p json_files acc with
    | inl jp2 =>
      simp only [scanPats, hsc, Sum.inl.injEq] at h
      subst h
      exact scanPat_inl_sound dir_path expLower json_titles used_jsons p json_files acc jp2 hsc
    | inr acc2 =>
      simp only [scanPats, hsc] at h
      exact ih _ _ h

/-- Lifting of `scanPat_inr_acc` to the whole pattern loop. -/
theorem scanPats_inr_acc (dir_path expLower : Str) (json_files : List Str)
    (json_titles : List (Str × Str)) (used_jsons : List Str) :
    ∀ (pats : List Str) (acc acc2 : List (Str × Str × Nat)),
      scanPats dir_path expLower json_files json_titles used_jsons pats acc = Sum.inr acc2 →
      (∀ c ∈ acc, ∃ f : Str, c.1 = pathJoin dir_path f ∧ c.2.1 = lookupTitle json_titles f) →
      (∀ c ∈ acc2, ∃ f : Str, c.1 = pathJoin dir_path f ∧ c.2.1 = lookupTitle json_titles f) := by
  intro pats
  induction pats with
  | nil =>
    intro acc acc2 h hacc
    rw [scanPats] at h
    cases h
    exact hacc
  | cons p ps ih =>
    intro acc acc2 h hacc
    cases hsc : scanPat dir_path expLower json_titles used_jsons p json_files acc with
    | inl jp2 =>
      simp only [scanPats, hsc] at h
      exact absurd h (by simp)
    | inr accm =>
      simp only [scanPats, hsc] at h
      exact ih _ _ h (scanPat_inr_acc dir_path expLower json_titles used_jsons p json_files
        acc accm hsc hacc)

/-- A fuzzy-pass result is one of the gathered candidates, accepted by the
matcher on its stored title. -/
theorem fuzzyLoop_some_sound (matcher : Str → Str → Str → Bool) (expected_title media_ext : Str) :
    ∀ (cands : List (Str × Str × Nat)) (jp : Str),
      fuzzyLoop matcher expected_title media_ext cands = some jp →
      ∃ c ∈ cands, c.1 = jp ∧ matcher c.2.1 expected_title media_ext = true := by
  intro cands
  induction cands with
  | nil => intro jp h; exact absurd h (by simp [fuzzyLoop])
  | cons c cs ih =>
    intro jp h
    by_cases hm : matcher c.2.1 expected_title media_ext = true
    · rw [show c = (c.1, c.2.1, c.2.2) from rfl, fuzzyLoop, if_pos hm] at h
      cases h
      exact ⟨c, List.mem_cons_self _ _, rfl, hm⟩
    · rw [show c = (c.1, c.2.1, c.2.2) from rfl, fuzzyLoop, if_neg hm] at h
      obtain ⟨c2, hc2, h1, h2⟩ := ih jp h
      exact ⟨c2, List.mem_cons_of_mem _ hc2, h1, h2⟩

/-- Every result of a truncated-pattern file loop is an unused sidecar that
matched exactly on its cached title or was accepted by the matcher. -/
theorem truncPatScan_some_sound (matcher : Str → Str → Str → Bool)
    (dir_path expLower expected_title media_ext : Str) (json_titles : List (Str × Str))
    (used_jsons : List Str) (pat : Str) :
    ∀ (files : List Str) (jp : Str),
      truncPatScan matcher dir_path expLower expected_title media_ext json_titles used_jsons
        pat files = some jp →
      ∃ f : Str, jp = pathJoin dir_path f ∧ jp ∉ used_jsons ∧
        (pyLower (lookupTitle json_titles f) = expLower ∨
         matcher (lookupTitle json_titles f) expected_title media_ext = true) := by
  intro files
  induction files with
  | nil => intro jp h; exact absurd h (by simp [truncPatScan])
  | cons f fs ih =>
    intro jp h
    by_cases hg : matchGlob (pyLower pat) (pyLower f) = true
    · by_cases hu : pathJoin dir_path f ∈ used_jsons
      · rw [truncPatScan, if_pos hg, if_pos hu] at h
        exact ih _ h
      · by_cases he : pyLower (lookupTitle json_titles f) = expLower
        · rw [truncPatScan, if_pos hg, if_neg hu, if_pos he] at h
          cases h
          exact ⟨f, rfl, hu, Or.inl he⟩
        · by_cases hm : matcher (lookupTitle json_titles f) expected_title media_ext = true
          · rw [truncPatScan, if_pos hg, if_neg hu, if_neg he, if_pos hm] at h
            cases h
            exact ⟨f, rfl, hu, Or.inr hm⟩
          · rw [truncPatScan, if_pos hg, if_neg hu, if_neg he, if_neg hm] at h
            exact ih _ h
    · rw [truncPatScan, if_neg hg] at h
      exact ih _ h

/-- Lifting of `truncPatScan_some_sound` over a whole truncation sweep. -/
theorem truncSweep_some_sound (matcher : Str → Str → Str → Bool)
    (dir_path expLower expected_title media_ext : Str) (json_files : List Str)
    (json_titles : List (Str × Str)) (used_jsons : List Str) (src : Str) :
    ∀ (lens : List Nat) (jp : Str),
      truncSweep matcher dir_path expLower expected_title media_ext json_files json_titles
        used_jsons src lens = some jp →
      ∃ f : Str, jp = pathJoin dir_path f ∧ jp ∉ used_jsons ∧
        (pyLower (lookupTitle json_titles f) = expLower ∨
         matcher (lookupTitle json_titles f) expected_title media_ext = true) := by
  intro lens
  induction lens with
  | nil => intro jp h; exact absurd h (by simp [truncSweep])
  | cons L Ls ih =>
    intro jp h
    cases hts : truncPatScan matcher dir_path expLower expected_title media_ext json_titles
        used_jsons (src.take L ++ "*.json".toList) json_files with
    | some jp2 =>
      simp only [truncSweep, hts, Option.some.injEq] at h
      subst h
      exact truncPatScan_some_sound matcher dir_path expLower expected_title media_ext
        json_titles used_jsons _ json_files jp2 hts
    | none =>
      simp only [truncSweep, hts] at h
      exact ih _ h

/-- Characterisation of a successful `find_misnamed_json` (for any fuzzy
matcher): the returned path is the join of the directory with some sidecar
filename whose cached title either equals the expected title
case-insensitively or is accepted by the matcher.  Every return site of the
source is guarded by one of these two tests. -/
theorem find_with_some_sound (matcher : Str → Str → Str → Bool)
    (dir_path base_name media_ext num_suffix : Str) (json_files : List Str)
    (json_titles : List (Str × Str)) (used_jsons : List Str) (suffix_variants : List Str)
    (avg_len min_pref_factor : PyFloat) (step_divisor : Nat) (jp : Str)
    (h : find_misnamed_json_with matcher dir_path base_name media_ext num_suffix json_files
        json_titles used_jsons suffix_variants avg_len min_pref_factor step_divisor = some jp) :
    ∃ f : Str, jp = pathJoin dir_path f ∧
      (pyLower (lookupTitle json_titles f) = pyLower (base_name ++ media_ext) ∨
       matcher (lookupTitle json_titles f) (base_name ++ media_ext) media_ext = true) := by
  simp only [find_misnamed_json_with] at h
  cases hscan : scanPats dir_path (pyLower (base_name ++ media_ext)) json_files json_titles
      used_jsons (tier12Patterns base_name media_ext num_suffix suffix_variants) [] with
  | inl jp2 =>
    simp only [hscan, Option.some.injEq] at h
    subst h
    obtain ⟨f, hf, he, _⟩ := scanPats_inl_sound _ _ _ _ _ _ _ _ hscan
    exact ⟨f, hf, Or.inl he⟩
  | inr cands =>
    simp only [hscan] at h
    cases hfz : fuzzyLoop matcher (base_name ++ media_ext) media_ext cands with
    | some jp2 =>
      simp only [hfz, Option.some.injEq] at h
      subst h
      obtain ⟨c, hc, hc1, hcm⟩ := fuzzyLoop_some_sound _ _ _ _ _ hfz
      obtain ⟨f, hf1, hf2⟩ :=
        scanPats_inr_acc _ _ _ _ _ _ _ _ hscan (by intro c hc; exact absurd hc (by simp)) c hc
      exact ⟨f, hc1 ▸ hf1, Or.inr (hf2 ▸ hcm)⟩
    | none =>
      simp only [hfz] at h
      cases ht1 : truncSweep matcher dir_path (pyLower (base_name ++ media_ext))
          (base_name ++ media_ext) media_ext json_files json_titles used_jsons base_name
          (truncLengths base_name.length (max 20 (pyIntMul base_name.length min_pref_factor))
            (max 1 ((base_name.length - max 20 (pyIntMul base_name.length min_pref_factor)) /
              step_divisor))) with
      | some jp2 =>
        simp only [ht1, Option.some.injEq] at h
        subst h
        obtain ⟨f, hf, _, hcase⟩ := truncSweep_some_sound _ _ _ _ _ _ _ _ _ _ _ ht1
        exact ⟨f, hf, hcase⟩
      | none =>
        simp only [ht1] at h
        obtain ⟨f, hf, _, hcase⟩ := truncSweep_some_sound _ _ _ _ _ _ _ _ _ _ _ h
        exact ⟨f, hf, hcase⟩

/-- A non-empty list is not a suffix of the empty list. -/
theorem not_isSuffixOf_nil (l : Str) (h : l ≠ []) : l.isSuffixOf ([] : Str) = false := by
  cases hs : l.isSuffixOf ([] : Str)
  · rfl
  · exact absurd (List.suffix_nil.mp (List.isSuffixOf_iff_suffix.mp hs)) h

/-- The extension gate of the matcher, as a reusable helper: when the
lowered observed title does not end with the lowered expected extension,
both threshold branches reject. -/
theorem is_matching_title_gate_reject (title expected_title expected_ext : Str)
    (h : (pyLower expected_ext).isSuffixOf (pyLower title) = false) :
    is_matching_title title expected_title expected_ext = false := by
  simp [is_matching_title, h]

/-- Claim C10: a sidecar whose cached title is empty (the `get_json_title`
fallback for absent or unreadable titles) is never returned by
`find_misnamed_json` for a media file with a non-empty extension: the
expected title `base ++ ext` is non-empty so the exact comparison fails, and
the fuzzy matcher rejects because the empty title does not end with the
non-empty extension. -/
theorem c10_empty_title_never_matched (dir_path base_name media_ext num_suffix : Str)
    (json_files : List Str) (json_titles : List (Str × Str)) (used_jsons : List Str)
    (suffix_variants : List Str) (avg_len min_pref_factor : PyFloat) (step_divisor : Nat)
    (hext : media_ext ≠ []) (f : Str) (htitle : lookupTitle json_titles f = []) :
    find_misnamed_json dir_path base_name media_ext num_suffix json_files json_titles
        used_jsons suffix_variants avg_len min_pref_factor step_divisor
      ≠ some (pathJoin dir_path f) := by
  intro h
  rw [find_misnamed_json] at h
  obtain ⟨f2, hjp, hcase⟩ := find_with_some_sound is_matching_title dir_path base_name media_ext
    num_suffix json_files json_titles used_jsons suffix_variants avg_len min_pref_factor
    step_divisor _ h
  have hff : f2 = f := by
    have h2 : '/' :: f = '/' :: f2 := List.append_cancel_left (hjp ▸ rfl : pathJoin dir_path f
      = pathJoin dir_path f2)
    exact (List.cons.injEq _ _ _ _).mp h2 |>.2.symm
  subst hff
  rw [htitle] at hcase
  cases hcase with
  | inl hexact =>
    have h0 := congrArg List.length hexact
    simp only [pyLower, List.length_map, List.length_nil, List.length_append] at h0
    have h1 : media_ext.length ≠ 0 := fun hz => hext (List.length_eq_zero.mp hz)
    omega
  | inr hfuzzy =>
    have hgate : (pyLower media_ext).isSuffixOf (pyLower ([] : Str)) = false := by
      apply not_isSuffixOf_nil
      intro hz
      exact hext (List.map_eq_nil_iff.mp hz)
    rw [is_matching_title_gate_reject [] (base_name ++ media_ext) media_ext hgate] at hfuzzy
    exact Bool.false_ne_true hfuzzy

/-- Claim C10 witness: a concrete sidecar with empty cached title is not
returned. -/
theorem c10_empty_title_never_matched_witness :
    find_misnamed_json (chars "d") (chars "a") (chars ".jpg") [] [chars "x.json"]
        [(chars "x.json", [])] [] [chars "md"] ⟨30, 1⟩ ⟨7, 10⟩ 20
      ≠ some (pathJoin (chars "d") (chars "x.json")) :=
  c10_empty_title_never_matched (chars "d") (chars "a") (chars ".jpg") [] [chars "x.json"]
    [(chars "x.json", [])] [] [chars "md"] ⟨30, 1⟩ ⟨7, 10⟩ 20 (by decide) (chars "x.json")
    (by decide)

/-- If some file in the list matches the pattern, is unused, and carries an
exactly-matching cached title, the tier-1/2 file loop short-circuits with an
early return (for any accumulator). -/
theorem scanPat_exact_finds (dir_path expLower : Str) (json_titles : List (Str × Str))
    (used_jsons : List Str) (pat : Str) :
    ∀ (files : List Str) (acc : List (Str × Str × Nat)),
      (∃ fl ∈ files, matchGlob (pyLower pat) (pyLower fl) = true ∧
        pathJoin dir_path fl ∉ used_jsons ∧ pyLower (lookupTitle json_titles fl) = expLower) →
      ∃ jp : Str, scanPat dir_path expLower json_titles used_jsons pat files acc = Sum.inl jp := by
  intro files
  induction files with
  | nil =>
    rintro acc ⟨fl, hfl, _⟩
    exact absurd hfl (by simp)
  | cons f fs ih =>
    rintro acc ⟨fl, hfl, hg, hu, he⟩
    by_cases hgf : matchGlob (pyLower pat) (pyLower f) = true
    · by_cases huf : pathJoin dir_path f ∈ used_jsons
      · rw [scanPat, if_pos hgf, if_pos huf]
        apply ih
        rcases List.mem_cons.mp hfl with rfl | hmem
        · exact absurd huf hu
        · exact ⟨fl, hmem, hg, hu, he⟩
      · by_cases hef : pyLower (lookupTitle json_titles f) = expLower
        · exact ⟨_, by rw [scanPat, if_pos hgf, if_neg huf, if_pos hef]⟩
        · rw [scanPat, if_pos hgf, if_neg huf, if_neg hef]
          apply ih
          rcases List.mem_cons.mp hfl with rfl | hmem
          · exact absurd he hef
          · exact ⟨fl, hmem, hg, hu, he⟩
    · rw [scanPat, if_neg hgf]
      apply ih
      rcases List.mem_cons.mp hfl with rfl | hmem
      · exact absurd hg hgf
      · exact ⟨fl, hmem, hg, hu, he⟩

/-- Lifting of `scanPat_exact_finds` over the pattern loop: an exact-title
unused candidate under any tier-1/2 pattern forces an early return. -/
theorem scanPats_exact_finds (dir_path expLower : Str) (json_files : List Str)
    (json_titles : List (Str × Str)) (used_jsons : List Str) :
    ∀ (pats : List Str) (acc : List (Str × Str × Nat)),
      (∃ pat ∈ pats, ∃ fl ∈ json_files, matchGlob (pyLower pat) (pyLower fl) = true ∧
        pathJoin dir_path fl ∉ used_jsons ∧ pyLower (lookupTitle json_titles fl) = expLower) →
      ∃ jp : Str, scanPats dir_path expLower json_files json_titles used_jsons pats acc
        = Sum.inl jp := by
  intro pats
  induction pats with
  | nil =>
    rintro acc ⟨p, hp, _⟩
    exact absurd hp (by simp)
  | cons p ps ih =>
    rintro acc ⟨pat, hpat, hw⟩
    cases hsc : scanPat dir_path expLower json_titles used_jsons p json_files acc with
    | inl jp => exact ⟨jp, by simp only [scanPats, hsc]⟩
    | inr acc2 =>
      rcases List.mem_cons.mp hpat with rfl | hmem
      · obtain ⟨jp, hjp⟩ := scanPat_exact_finds dir_path expLower json_titles used_jsons pat
          json_files acc hw
        rw [hjp] at hsc
        cases hsc
      · obtain ⟨jp, hjp⟩ := ih acc2 ⟨pat, hmem, hw⟩
        exact ⟨jp, by simp only [scanPats, hsc, hjp]⟩

/-- Claim C3 (amended): within the tier-1/2 pattern scan the exact-title
short-circuit holds — whenever some sidecar file matching one of the
exact-suffix or generic-wildcard patterns is unassigned and its cached title
equals the expected title `base ++ ext` case-insensitively, the engine
resolves to a sidecar with exactly-matching cached title, and its result is
independent of the fuzzy matcher's accept decision.  (In the truncation
tiers the fuzzy matcher can fire on an earlier candidate before a later
exact-title candidate is examined, and a sidecar matching no probed pattern
is never returned, so the claim's stronger per-tier statement fails.) -/
theorem c3_amended_exact_scan (matcher : Str → Str → Str → Bool)
    (dir_path base_name media_ext num_suffix : Str) (json_files : List Str)
    (json_titles : List (Str × Str)) (used_jsons : List Str) (suffix_variants : List Str)
    (avg_len min_pref_factor : PyFloat) (step_divisor : Nat)
    (h : ∃ pat ∈ tier12Patterns base_name media_ext num_suffix suffix_variants,
      ∃ fl ∈ json_files, matchGlob (pyLower pat) (pyLower fl) = true ∧
        pathJoin dir_path fl ∉ used_jsons ∧
        pyLower (lookupTitle json_titles fl) = pyLower (base_name ++ media_ext)) :
    (∃ fl : Str,
      find_misnamed_json_with matcher dir_path base_name media_ext num_suffix json_files
          json_titles used_jsons suffix_variants avg_len min_pref_factor step_divisor
        = some (pathJoin dir_path fl) ∧
      pyLower (lookupTitle json_titles fl) = pyLower (base_name ++ media_ext) ∧
      pathJoin dir_path fl ∉ used_jsons) ∧
    find_misnamed_json_with matcher dir_path base_name media_ext num_suffix json_files
        json_titles used_jsons suffix_variants avg_len min_pref_factor step_divisor
      = find_misnamed_json dir_path base_name media_ext num_suffix json_files json_titles
          used_jsons suffix_variants avg_len min_pref_factor step_divisor := by
  obtain ⟨jp, hscan⟩ := scanPats_exact_finds dir_path (pyLower (base_name ++ media_ext))
    json_files json_titles used_jsons
    (tier12Patterns base_name media_ext num_suffix suffix_variants) [] h
  obtain ⟨fl, hfl, he, hu⟩ := scanPats_inl_sound _ _ _ _ _ _ _ _ hscan
  have heq : ∀ m : Str → Str → Str → Bool,
      find_misnamed_json_with m dir_path base_name media_ext num_suffix json_files json_titles
        used_jsons suffix_variants avg_len min_pref_factor step_divisor = some jp := by
    intro m
    simp only [find_misnamed_json_with, hscan]
  refine ⟨⟨fl, ?_, he, hfl ▸ hu⟩, ?_⟩
  · rw [heq matcher, hfl]
  · rw [find_misnamed_json, heq matcher, heq is_matching_title]

/-- Claim C3 witness: the amended short-circuit applied at a concrete
directory, with a matcher that rejects everything — the exact-title path
still resolves and agrees with the engine's own matcher. -/
theorem c3_amended_exact_scan_witness :
    (∃ fl : Str,
      find_misnamed_json_with (fun _ _ _ => false) (chars "d") (chars "a") (chars ".jpg") []
          [chars "a.md.json"] [(chars "a.md.json", chars "a.jpg")] [] [chars "md"]
          ⟨30, 1⟩ ⟨7, 10⟩ 20
        = some (pathJoin (chars "d") fl) ∧
      pyLower (lookupTitle [(chars "a.md.json", chars "a.jpg")] fl)
        = pyLower (chars "a" ++ chars ".jpg") ∧
      pathJoin (chars "d") fl ∉ ([] : List Str)) ∧
    find_misnamed_json_with (fun _ _ _ => false) (chars "d") (chars "a") (chars ".jpg") []
        [chars "a.md.json"] [(chars "a.md.json", chars "a.jpg")] [] [chars "md"]
        ⟨30, 1⟩ ⟨7, 10⟩ 20
      = find_misnamed_json (chars "d") (chars "a") (chars ".jpg") []
          [chars "a.md.json"] [(chars "a.md.json", chars "a.jpg")] [] [chars "md"]
          ⟨30, 1⟩ ⟨7, 10⟩ 20 :=
  c3_amended_exact_scan (fun _ _ _ => false) (chars "d") (chars "a") (chars ".jpg") []
    [chars "a.md.json"] [(chars "a.md.json", chars "a.jpg")] [] [chars "md"]
    ⟨30, 1⟩ ⟨7, 10⟩ 20 (by decide)
